import Mathlib

/-!
Shallow embedding of `src/runtime/src/ancient_append_vecs.rs`: helpers for
squashing append vecs into ancient append vecs.  Machine integers (`u64`,
`usize`) are modelled as `Nat`; the only arithmetic in the source is
comparison and `saturating_sub`, which never wraps, so the `Nat` model is
exact.  Borrowed references are modelled by values; the `HashMap` input is
modelled as a list of key/value pairs in its (arbitrary but fixed)
iteration order.  Operations that can panic in Rust (`unwrap`, range
slicing) return `Option`, with `none` standing for the panic.
-/

namespace AncientAppendVecs

/-- Account identifier (`Pubkey`): fixed-size opaque byte key, modelled as `Nat`. -/
abbrev Pubkey := Nat

/-- Content hash (`Hash`): fixed-size opaque digest, modelled as `Nat`. -/
abbrev Hash := Nat

/-- Slot number: unsigned integer identifying a logical ledger time unit. -/
abbrev Slot := Nat

/-- Metadata stored with an account (`StoredMeta`). -/
structure StoredMeta where
  write_version : Nat
  pubkey : Pubkey
  data_len : Nat
  deriving DecidableEq

/-- Borrowed view over one account's persisted representation
(`StoredAccountMeta`); only the fields the compaction core reads are kept
(`meta.pubkey`, `hash`); the raw data bytes and offsets are never consulted
by this module. -/
structure StoredAccountMeta where
  meta : StoredMeta
  hash : Hash
  stored_size : Nat
  deriving DecidableEq

/-- `FoundStoredAccount`: a stored account plus the id of the segment it was
found in and its on-disk footprint (`account_size`), the budgeting unit. -/
structure FoundStoredAccount where
  account : StoredAccountMeta
  store_id : Nat
  account_size : Nat
  deriving DecidableEq

/-- Selector for the two destination storages. -/
inductive StorageSelector where
  | Primary
  | Overflow
  deriving DecidableEq

/-- The triples pushed into `AccountsToStore.accounts`:
`(&Pubkey, &StoredAccountMeta, Slot)`. -/
abbrev AccountTriple := Pubkey × StoredAccountMeta × Slot

/-- `AccountsToStore`: parallel lists of hashes and account triples plus the
index of the first item that goes to the overflow storage. -/
structure AccountsToStore where
  hashes : List Hash
  accounts : List AccountTriple
  index_first_item_overflow : Nat
  deriving DecidableEq

/-- The loop body of `AccountsToStore::new` (`stored_accounts.iter().for_each`),
written as a recursion over the iteration order with the mutable locals
`available_bytes`, `hashes`, `accounts`, `index_first_item_overflow` as
explicit state.  `num_accounts` is `stored_accounts.len()`, fixed before the
loop.  In the source the budget update runs before the pushes, so on the
first deficit `index_first_item_overflow` receives `hashes.len()` counted
before the current account is pushed; `saturating_sub` under the guard
`available_bytes >= account_size` is plain subtraction. -/
def buildLoop (num_accounts : Nat) (slot : Slot) :
    Nat → List Hash → List AccountTriple → Nat →
    List (Pubkey × FoundStoredAccount) →
    Nat × List Hash × List AccountTriple × Nat
  | available_bytes, hashes, accounts, index_first_item_overflow, [] =>
    (available_bytes, hashes, accounts, index_first_item_overflow)
  | available_bytes, hashes, accounts, index_first_item_overflow,
      account :: rest =>
    let account_size := account.2.account_size
    if available_bytes ≥ account_size then
      buildLoop num_accounts slot (available_bytes - account_size)
        (hashes ++ [account.2.account.hash])
        (accounts ++ [(account.2.account.meta.pubkey, account.2.account, slot)])
        index_first_item_overflow rest
    else if index_first_item_overflow = num_accounts then
      buildLoop num_accounts slot 0
        (hashes ++ [account.2.account.hash])
        (accounts ++ [(account.2.account.meta.pubkey, account.2.account, slot)])
        hashes.length rest
    else
      buildLoop num_accounts slot available_bytes
        (hashes ++ [account.2.account.hash])
        (accounts ++ [(account.2.account.meta.pubkey, account.2.account, slot)])
        index_first_item_overflow rest

/-- `AccountsToStore::new`: break `stored_accounts` into primary and overflow. -/
def AccountsToStore.new (available_bytes : Nat)
    (stored_accounts : List (Pubkey × FoundStoredAccount)) (slot : Slot) :
    AccountsToStore :=
  let num_accounts := stored_accounts.length
  let r := buildLoop num_accounts slot available_bytes [] [] num_accounts
    stored_accounts
  ⟨r.2.1, r.2.2.1, r.2.2.2⟩

/-- Rust range slicing `&v[lo..hi]`: defined (`some`) exactly when
`lo ≤ hi ≤ v.len()`, otherwise the Rust code panics (`none`). -/
def sliceRange (l : List α) (lo hi : Nat) : Option (List α) :=
  if lo ≤ hi ∧ hi ≤ l.length then some ((l.drop lo).take (hi - lo)) else none

/-- `AccountsToStore::get`: the accounts and hashes to store in the given
storage.  Both lists are sliced with the same range; `none` models an
out-of-bounds slice panic. -/
def AccountsToStore.get (self : AccountsToStore) (storage : StorageSelector) :
    Option (List AccountTriple × List Hash) :=
  let range := match storage with
    | StorageSelector.Primary => (0, self.index_first_item_overflow)
    | StorageSelector.Overflow =>
      (self.index_first_item_overflow, self.accounts.length)
  match sliceRange self.accounts range.1 range.2,
      sliceRange self.hashes range.1 range.2 with
  | some a, some h => some (a, h)
  | _, _ => none

/-- Modelled from the spec: `MAXIMUM_APPEND_VEC_FILE_SIZE`, the maximum
allowed segment file size, lives in `append_vec.rs` which is not under
`src/`; the spec describes it only as a fixed constant, taken here at the
upstream value of 16 GiB. -/
def MAXIMUM_APPEND_VEC_FILE_SIZE : Nat := 16 * 1024 * 1024 * 1024

/-- `get_ancient_append_vec_capacity`: capacity of an ancient append vec,
smaller than the max file size by a bit of slop. -/
def get_ancient_append_vec_capacity : Nat :=
  MAXIMUM_APPEND_VEC_FILE_SIZE - 2048

/-- Modelled from the spec: the external `AppendVec` segment, visible to this
core only through `capacity()` and `remaining_bytes()`. -/
structure AppendVec where
  capacity : Nat
  remaining_bytes : Nat
  deriving DecidableEq

/-- `is_ancient`: is this a max-size append vec designed to be used as an
ancient append vec? -/
def is_ancient (storage : AppendVec) : Bool :=
  storage.capacity ≥ get_ancient_append_vec_capacity

/-- `is_full_ancient`: true iff storage is ancient size and is almost
completely full (fewer than `threshold_bytes = 10_000` bytes remaining). -/
def is_full_ancient (storage : AppendVec) : Bool :=
  let threshold_bytes := 10000
  is_ancient storage && storage.remaining_bytes < threshold_bytes

/-- Modelled from the spec: the external `AccountStorageEntry` handle, a
shared-ownership wrapper around an `AppendVec`; `Arc::clone` is modelled by
copying the value. -/
structure AccountStorageEntry where
  accounts : AppendVec
  deriving DecidableEq

/-- `SnapshotStorage`: the ordered collection of segment handles backing one
slot. -/
abbrev SnapshotStorage := List AccountStorageEntry

/-- `should_move_to_ancient_append_vec`: returns the boolean decision
together with the (possibly updated) `current_ancient` state; the outer
`Option` models the `first().unwrap()` panic (`none`), which the length
guard makes unreachable. -/
def should_move_to_ancient_append_vec (all_storages : SnapshotStorage)
    (current_ancient : Option (Slot × AccountStorageEntry)) (slot : Slot) :
    Option (Bool × Option (Slot × AccountStorageEntry)) :=
  if current_ancient.isNone ∧ all_storages.length = 1 then
    match all_storages.head? with
    | none => none
    | some first_storage =>
      if is_ancient first_storage.accounts then
        if is_full_ancient first_storage.accounts then
          some (false, current_ancient)
        else
          some (false, some (slot, first_storage))
      else
        some (true, current_ancient)
  else
    some (true, current_ancient)

/-- Footprints of the input accounts in iteration order. -/
def accountSizes (l : List (Pubkey × FoundStoredAccount)) : List Nat :=
  l.map fun a => a.2.account_size

/-- Hash references pushed by the loop, in iteration order. -/
def hashesOf (l : List (Pubkey × FoundStoredAccount)) : List Hash :=
  l.map fun a => a.2.account.hash

/-- Account triples pushed by the loop, in iteration order. -/
def triplesOf (slot : Slot) (l : List (Pubkey × FoundStoredAccount)) :
    List AccountTriple :=
  l.map fun a => (a.2.account.meta.pubkey, a.2.account, slot)

/-- Index of the first account whose footprint exceeds the remaining budget
(`some` of the absolute index, counting from `count`), or `none` when every
account fits.  This is the specification-level characterization of how
`index_first_item_overflow` evolves. -/
def computeSplit (available : Nat) (count : Nat) : List Nat → Option Nat
  | [] => none
  | s :: rest =>
    if available ≥ s then computeSplit (available - s) (count + 1) rest
    else some count

/-- The loop only ever appends to `hashes`: the final hash list is the
initial one followed by the hashes of the processed accounts, in iteration
order. -/
theorem buildLoop_hashes (num : Nat) (slot : Slot)
    (l : List (Pubkey × FoundStoredAccount)) :
    ∀ (ab : Nat) (hs : List Hash) (accs : List AccountTriple) (ifio : Nat),
    (buildLoop num slot ab hs accs ifio l).2.1 = hs ++ hashesOf l := by
  induction l with
  | nil => intro ab hs accs ifio; simp [buildLoop, hashesOf]
  | cons a rest ih =>
    intro ab hs accs ifio
    simp only [buildLoop]
    split_ifs <;> rw [ih] <;> simp [hashesOf]

/-- The loop only ever appends to `accounts`: the final triple list is the
initial one followed by the triples of the processed accounts, in iteration
order. -/
theorem buildLoop_accounts (num : Nat) (slot : Slot)
    (l : List (Pubkey × FoundStoredAccount)) :
    ∀ (ab : Nat) (hs : List Hash) (accs : List AccountTriple) (ifio : Nat),
    (buildLoop num slot ab hs accs ifio l).2.2.1 = accs ++ triplesOf slot l := by
  induction l with
  | nil => intro ab hs accs ifio; simp [buildLoop, triplesOf]
  | cons a rest ih =>
    intro ab hs accs ifio
    simp only [buildLoop]
    split_ifs <;> rw [ih] <;> simp [triplesOf]

/-- Once `index_first_item_overflow` has moved off its sentinel value
`num`, the loop never changes it again. -/
theorem buildLoop_frozen (num : Nat) (slot : Slot)
    (l : List (Pubkey × FoundStoredAccount)) :
    ∀ (ab : Nat) (hs : List Hash) (accs : List AccountTriple) (ifio : Nat),
    ifio ≠ num → (buildLoop num slot ab hs accs ifio l).2.2.2 = ifio := by
  induction l with
  | nil => intro ab hs accs ifio _; simp [buildLoop]
  | cons a rest ih =>
    intro ab hs accs ifio hne
    simp only [buildLoop]
    split_ifs with h1 <;> exact ih _ _ _ _ hne

/-- Characterization of the split index computed by the loop, starting from
the sentinel: it is the index of the first deficit as computed by
`computeSplit`, or `num` when every account fits. -/
theorem buildLoop_split (num : Nat) (slot : Slot)
    (l : List (Pubkey × FoundStoredAccount)) :
    ∀ (ab : Nat) (hs : List Hash) (accs : List AccountTriple),
    hs.length + l.length ≤ num →
    (buildLoop num slot ab hs accs num l).2.2.2 =
      (computeSplit ab hs.length (accountSizes l)).getD num := by
  induction l with
  | nil => intro ab hs accs _; simp [buildLoop, computeSplit, accountSizes]
  | cons a rest ih =>
    intro ab hs accs hle
    simp only [buildLoop, accountSizes, List.map_cons, computeSplit]
    split_ifs with h1
    · have := ih (ab - a.2.account_size) (hs ++ [a.2.account.hash])
        (accs ++ [(a.2.account.meta.pubkey, a.2.account, slot)])
        (by simp at hle ⊢; omega)
      rw [this]
      simp [accountSizes]
    · rw [buildLoop_frozen]
      · simp
      · simp at hle; omega

/-- If `computeSplit` reports a deficit, the reported index lies in the
range of indices of the scanned list. -/
theorem computeSplit_some_bounds (l : List Nat) :
    ∀ (ab c i : Nat), computeSplit ab c l = some i →
    c ≤ i ∧ i < c + l.length := by
  induction l with
  | nil => intro ab c i h; simp [computeSplit] at h
  | cons s rest ih =>
    intro ab c i h
    simp only [computeSplit] at h
    split_ifs at h with h1
    · have := ih _ _ _ h
      simp only [List.length_cons]
      omega
    · simp only [Option.some.injEq] at h
      simp only [List.length_cons]
      omega

/-- If every footprint fits cumulatively, `computeSplit` finds no deficit. -/
theorem computeSplit_none_of_sum_le (l : List Nat) :
    ∀ (ab c : Nat), l.sum ≤ ab → computeSplit ab c l = none := by
  induction l with
  | nil => intro ab c _; simp [computeSplit]
  | cons s rest ih =>
    intro ab c h
    simp only [List.sum_cons] at h
    simp only [computeSplit]
    rw [if_pos (by omega)]
    exact ih _ _ (by omega)

/-- If `computeSplit` finds no deficit, the whole list fits cumulatively. -/
theorem sum_le_of_computeSplit_none (l : List Nat) :
    ∀ (ab c : Nat), computeSplit ab c l = none → l.sum ≤ ab := by
  induction l with
  | nil => intro ab c _; simp
  | cons s rest ih =>
    intro ab c h
    simp only [computeSplit] at h
    split_ifs at h with h1
    · have := ih _ _ h
      simp only [List.sum_cons]
      omega

/-- Everything strictly before the first deficit fits within the budget. -/
theorem computeSplit_take_sum (l : List Nat) :
    ∀ (ab c k : Nat), computeSplit ab c l = some k →
    (l.take (k - c)).sum ≤ ab := by
  induction l with
  | nil => intro ab c k h; simp [computeSplit] at h
  | cons s rest ih =>
    intro ab c k h
    simp only [computeSplit] at h
    split_ifs at h with h1
    · have hb := computeSplit_some_bounds rest _ _ _ h
      have hr := ih _ _ _ h
      have hkc : k - c = (k - (c + 1)) + 1 := by omega
      rw [hkc, List.take_succ_cons, List.sum_cons]
      omega
    · simp only [Option.some.injEq] at h
      subst h
      simp

/-- The first index at which the cumulative footprint exceeds the budget is
exactly the index `computeSplit` reports. -/
theorem computeSplit_eq_some (l : List Nat) :
    ∀ (ab c i : Nat), i < l.length →
    (l.take i).sum ≤ ab → ab < (l.take (i + 1)).sum →
    computeSplit ab c l = some (c + i) := by
  induction l with
  | nil => intro ab c i h; simp at h
  | cons s rest ih =>
    intro ab c i hlen hfit hdef
    simp only [computeSplit]
    match i with
    | 0 =>
      have hds : ¬ ab ≥ s := by
        simp at hdef
        omega
      rw [if_neg hds]
      simp
    | j + 1 =>
      have hs : s ≤ ab := by
        simp [List.take_succ_cons, List.sum_cons] at hfit
        omega
      rw [if_pos hs]
      have := ih (ab - s) (c + 1) j (by simp at hlen; omega)
        (by simp [List.take_succ_cons, List.sum_cons] at hfit; omega)
        (by simp [List.take_succ_cons, List.sum_cons] at hdef; omega)
      rw [this]
      congr 1
      omega

/-- The hash list built by `AccountsToStore::new` is the input's hashes in
iteration order. -/
theorem new_hashes_eq (ab : Nat) (l : List (Pubkey × FoundStoredAccount))
    (slot : Slot) : (AccountsToStore.new ab l slot).hashes = hashesOf l := by
  simp only [AccountsToStore.new]
  rw [buildLoop_hashes]
  simp

/-- The account-triple list built by `AccountsToStore::new` is the input's
triples in iteration order, all tagged with the destination slot. -/
theorem new_accounts_eq (ab : Nat) (l : List (Pubkey × FoundStoredAccount))
    (slot : Slot) : (AccountsToStore.new ab l slot).accounts = triplesOf slot l := by
  simp only [AccountsToStore.new]
  rw [buildLoop_accounts]
  simp

/-- The split index built by `AccountsToStore::new` is the first cumulative
deficit found by `computeSplit`, defaulting to the input length when every
account fits. -/
theorem new_index_eq (ab : Nat) (l : List (Pubkey × FoundStoredAccount))
    (slot : Slot) :
    (AccountsToStore.new ab l slot).index_first_item_overflow =
      (computeSplit ab 0 (accountSizes l)).getD l.length := by
  simp only [AccountsToStore.new]
  rw [buildLoop_split l.length slot l ab [] []]
  · simp
  · simp

/-- The split index never exceeds the number of input accounts. -/
theorem new_index_le (ab : Nat) (l : List (Pubkey × FoundStoredAccount))
    (slot : Slot) :
    (AccountsToStore.new ab l slot).index_first_item_overflow ≤ l.length := by
  rw [new_index_eq]
  cases h : computeSplit ab 0 (accountSizes l) with
  | none => simp
  | some i =>
    have hb := computeSplit_some_bounds (accountSizes l) ab 0 i h
    have hlen : (accountSizes l).length = l.length := List.length_map _ _
    simp only [Option.getD_some]
    omega

/-- `get(Primary)` returns the sub-range `[0, index_first_item_overflow)`
of both lists whenever the split index is within both lists. -/
theorem get_primary_eq (s : AccountsToStore)
    (h1 : s.index_first_item_overflow ≤ s.accounts.length)
    (h2 : s.index_first_item_overflow ≤ s.hashes.length) :
    s.get StorageSelector.Primary =
      some (s.accounts.take s.index_first_item_overflow,
        s.hashes.take s.index_first_item_overflow) := by
  simp only [AccountsToStore.get, sliceRange]
  rw [if_pos ⟨Nat.zero_le _, h1⟩, if_pos ⟨Nat.zero_le _, h2⟩]
  simp

/-- `get(Overflow)` returns the sub-range `[index_first_item_overflow, len)`
of both lists whenever the split index is in range and the lists have equal
length. -/
theorem get_overflow_eq (s : AccountsToStore)
    (h1 : s.index_first_item_overflow ≤ s.accounts.length)
    (h2 : s.hashes.length = s.accounts.length) :
    s.get StorageSelector.Overflow =
      some (s.accounts.drop s.index_first_item_overflow,
        s.hashes.drop s.index_first_item_overflow) := by
  simp only [AccountsToStore.get, sliceRange]
  rw [if_pos ⟨h1, Nat.le_refl _⟩, if_pos ⟨h1, Nat.le_of_eq h2.symm⟩]
  have ha : (s.accounts.drop s.index_first_item_overflow).take
      (s.accounts.length - s.index_first_item_overflow) =
      s.accounts.drop s.index_first_item_overflow := by
    apply List.take_of_length_le
    rw [List.length_drop]
  have hh : (s.hashes.drop s.index_first_item_overflow).take
      (s.accounts.length - s.index_first_item_overflow) =
      s.hashes.drop s.index_first_item_overflow := by
    apply List.take_of_length_le
    rw [List.length_drop, h2]
  rw [ha, hh]

/-- The triple list has one entry per input account. -/
theorem triplesOf_length (slot : Slot) (l : List (Pubkey × FoundStoredAccount)) :
    (triplesOf slot l).length = l.length := by
  simp [triplesOf]

/-- The hash list has one entry per input account. -/
theorem hashesOf_length (l : List (Pubkey × FoundStoredAccount)) :
    (hashesOf l).length = l.length := by
  simp [hashesOf]

/-- The footprint list has one entry per input account. -/
theorem accountSizes_length (l : List (Pubkey × FoundStoredAccount)) :
    (accountSizes l).length = l.length := by
  simp [accountSizes]

/-- The split index is within the accounts list built by the constructor. -/
theorem new_index_le_accounts (ab : Nat)
    (l : List (Pubkey × FoundStoredAccount)) (slot : Slot) :
    (AccountsToStore.new ab l slot).index_first_item_overflow ≤
      (AccountsToStore.new ab l slot).accounts.length := by
  rw [new_accounts_eq, triplesOf_length]
  exact new_index_le ab l slot

/-- The two parallel lists built by the constructor have equal length. -/
theorem new_hashes_length_eq (ab : Nat)
    (l : List (Pubkey × FoundStoredAccount)) (slot : Slot) :
    (AccountsToStore.new ab l slot).hashes.length =
      (AccountsToStore.new ab l slot).accounts.length := by
  rw [new_accounts_eq, new_hashes_eq, triplesOf_length, hashesOf_length]

/-- C1: for every budget and input, the constructed `AccountsToStore`
satisfies the accessor contract: `get(Primary)` is the sub-range
`[0, index_first_item_overflow)` of both lists, `get(Overflow)` is
`[index_first_item_overflow, len)`, the two ranges concatenate back to the
full lists (a contiguous partition with no gaps or duplicates), their
lengths sum to the input length, and empty input yields empty results for
both selectors. -/
theorem accounts_to_store_accessor_contract (available_bytes : Nat)
    (stored_accounts : List (Pubkey × FoundStoredAccount)) (slot : Slot) :
    let s := AccountsToStore.new available_bytes stored_accounts slot
    s.get StorageSelector.Primary =
      some (s.accounts.take s.index_first_item_overflow,
        s.hashes.take s.index_first_item_overflow) ∧
    s.get StorageSelector.Overflow =
      some (s.accounts.drop s.index_first_item_overflow,
        s.hashes.drop s.index_first_item_overflow) ∧
    s.accounts.take s.index_first_item_overflow ++
      s.accounts.drop s.index_first_item_overflow = s.accounts ∧
    s.hashes.take s.index_first_item_overflow ++
      s.hashes.drop s.index_first_item_overflow = s.hashes ∧
    (s.accounts.take s.index_first_item_overflow).length +
      (s.accounts.drop s.index_first_item_overflow).length =
      stored_accounts.length ∧
    (stored_accounts = [] →
      s.get StorageSelector.Primary = some ([], []) ∧
      s.get StorageSelector.Overflow = some ([], [])) := by
  intro s
  have hs : s = AccountsToStore.new available_bytes stored_accounts slot := rfl
  rw [hs]
  have h1 := new_index_le_accounts available_bytes stored_accounts slot
  have h2 := new_hashes_length_eq available_bytes stored_accounts slot
  have hp := get_primary_eq _ h1 (by rw [h2]; exact h1)
  have ho := get_overflow_eq _ h1 h2
  refine ⟨hp, ho, List.take_append_drop _ _, List.take_append_drop _ _, ?_, ?_⟩
  · rw [List.length_take, List.length_drop, new_accounts_eq, triplesOf_length]
    have := new_index_le available_bytes stored_accounts slot
    omega
  · intro he
    subst he
    rw [hp, ho, new_accounts_eq, new_hashes_eq]
    simp [triplesOf, hashesOf]

/-- C9: the constructed lists are index-aligned with one entry per input
account, the split index is within bounds, and both selector reads succeed
(no out-of-bounds slice panic). -/
theorem accounts_to_store_no_panic (available_bytes : Nat)
    (stored_accounts : List (Pubkey × FoundStoredAccount)) (slot : Slot) :
    let s := AccountsToStore.new available_bytes stored_accounts slot
    s.hashes.length = s.accounts.length ∧
    s.accounts.length = stored_accounts.length ∧
    s.index_first_item_overflow ≤ s.accounts.length ∧
    (s.get StorageSelector.Primary).isSome = true ∧
    (s.get StorageSelector.Overflow).isSome = true := by
  intro s
  have hs : s = AccountsToStore.new available_bytes stored_accounts slot := rfl
  rw [hs]
  have h1 := new_index_le_accounts available_bytes stored_accounts slot
  have h2 := new_hashes_length_eq available_bytes stored_accounts slot
  refine ⟨h2, ?_, h1, ?_, ?_⟩
  · rw [new_accounts_eq, triplesOf_length]
  · rw [get_primary_eq _ h1 (by rw [h2]; exact h1)]
    rfl
  · rw [get_overflow_eq _ h1 h2]
    rfl

/-- C2: the split is one-shot and irrevocable.  If `i` is the position of
the first account in iteration order whose footprint exceeds the remaining
budget (everything strictly before it fits cumulatively, the cumulative sum
through it does not), then the split index is exactly `i` and `Overflow`
receives that account and every account after it, regardless of whether a
later account would individually fit; `Primary` receives only the accounts
before `i`. -/
theorem accounts_to_store_one_shot_split (available_bytes : Nat)
    (stored_accounts : List (Pubkey × FoundStoredAccount)) (slot : Slot)
    (i : Nat)
    (hfit : ((accountSizes stored_accounts).take i).sum ≤ available_bytes)
    (hdef : available_bytes < ((accountSizes stored_accounts).take (i + 1)).sum) :
    (AccountsToStore.new available_bytes stored_accounts slot).index_first_item_overflow = i ∧
    (AccountsToStore.new available_bytes stored_accounts slot).get
        StorageSelector.Overflow =
      some ((triplesOf slot stored_accounts).drop i,
        (hashesOf stored_accounts).drop i) ∧
    (AccountsToStore.new available_bytes stored_accounts slot).get
        StorageSelector.Primary =
      some ((triplesOf slot stored_accounts).take i,
        (hashesOf stored_accounts).take i) := by
  have hlen : i < (accountSizes stored_accounts).length := by
    by_contra hni
    push_neg at hni
    rw [List.take_of_length_le hni] at hfit
    rw [List.take_of_length_le (Nat.le_trans hni (Nat.le_succ i))] at hdef
    omega
  have hcs := computeSplit_eq_some (accountSizes stored_accounts)
    available_bytes 0 i hlen hfit hdef
  have hidx : (AccountsToStore.new available_bytes stored_accounts
      slot).index_first_item_overflow = i := by
    rw [new_index_eq, hcs]
    simp
  have h1 := new_index_le_accounts available_bytes stored_accounts slot
  have h2 := new_hashes_length_eq available_bytes stored_accounts slot
  refine ⟨hidx, ?_, ?_⟩
  · rw [get_overflow_eq _ h1 h2, new_accounts_eq, new_hashes_eq, hidx]
  · rw [get_primary_eq _ h1 (by rw [h2]; exact h1), new_accounts_eq,
      new_hashes_eq, hidx]

/-- C4: if the total footprint of the input fits within the budget, the
split index equals the input count and `get(Overflow)` returns empty
lists. -/
theorem accounts_to_store_all_fit (available_bytes : Nat)
    (stored_accounts : List (Pubkey × FoundStoredAccount)) (slot : Slot)
    (h : (accountSizes stored_accounts).sum ≤ available_bytes) :
    (AccountsToStore.new available_bytes stored_accounts
      slot).index_first_item_overflow = stored_accounts.length ∧
    (AccountsToStore.new available_bytes stored_accounts slot).get
      StorageSelector.Overflow = some ([], []) := by
  have hcs := computeSplit_none_of_sum_le (accountSizes stored_accounts)
    available_bytes 0 h
  have hidx : (AccountsToStore.new available_bytes stored_accounts
      slot).index_first_item_overflow = stored_accounts.length := by
    rw [new_index_eq, hcs]
    simp
  have h1 := new_index_le_accounts available_bytes stored_accounts slot
  have h2 := new_hashes_length_eq available_bytes stored_accounts slot
  refine ⟨hidx, ?_⟩
  rw [get_overflow_eq _ h1 h2, hidx, new_accounts_eq, new_hashes_eq]
  rw [List.drop_eq_nil_of_le (by rw [triplesOf_length]),
    List.drop_eq_nil_of_le (by rw [hashesOf_length])]

/-- C5: the total footprint of the accounts assigned to the primary group
never exceeds the original budget by more than the footprint of the single
account that triggered overflow (in fact it never exceeds the budget at
all). -/
theorem accounts_to_store_primary_budget (available_bytes : Nat)
    (stored_accounts : List (Pubkey × FoundStoredAccount)) (slot : Slot) :
    ((accountSizes stored_accounts).take
        (AccountsToStore.new available_bytes stored_accounts
          slot).index_first_item_overflow).sum ≤
      available_bytes +
        (accountSizes stored_accounts).getD
          (AccountsToStore.new available_bytes stored_accounts
            slot).index_first_item_overflow 0 := by
  have hb : ((accountSizes stored_accounts).take
      (AccountsToStore.new available_bytes stored_accounts
        slot).index_first_item_overflow).sum ≤ available_bytes := by
    rw [new_index_eq]
    cases hcs : computeSplit available_bytes 0 (accountSizes stored_accounts) with
    | none =>
      simp only [Option.getD_none]
      rw [List.take_of_length_le (by rw [accountSizes_length])]
      exact sum_le_of_computeSplit_none _ _ _ hcs
    | some k =>
      simp only [Option.getD_some]
      have := computeSplit_take_sum (accountSizes stored_accounts)
        available_bytes 0 k hcs
      simpa using this
  exact Nat.le_trans hb (Nat.le_add_right _ _)

/-- C6: a segment is ancient exactly when its capacity reaches
`get_ancient_append_vec_capacity`, boundary-exact: false one byte below the
threshold, true at it, true one byte above it. -/
theorem is_ancient_capacity_boundary (s : AppendVec) :
    (is_ancient s = true ↔ s.capacity ≥ get_ancient_append_vec_capacity) ∧
    (s.capacity = get_ancient_append_vec_capacity - 1 → is_ancient s = false) ∧
    (s.capacity = get_ancient_append_vec_capacity → is_ancient s = true) ∧
    (s.capacity = get_ancient_append_vec_capacity + 1 → is_ancient s = true) := by
  have hpos : 0 < get_ancient_append_vec_capacity := by
    norm_num [get_ancient_append_vec_capacity, MAXIMUM_APPEND_VEC_FILE_SIZE]
  refine ⟨by simp [is_ancient], ?_, ?_, ?_⟩
  · intro h
    simp only [is_ancient, h, ge_iff_le, decide_eq_false_iff_not, not_le]
    omega
  · intro h
    simp [is_ancient, h]
  · intro h
    simp [is_ancient, h]

/-- C7: a segment is a full ancient segment exactly when it is ancient and
its remaining bytes are below the fixed threshold of 10000; in particular
`is_full_ancient` is false for every non-ancient segment, whatever its
remaining bytes. -/
theorem is_full_ancient_characterization (s : AppendVec) :
    (is_full_ancient s = true ↔
      (is_ancient s = true ∧ s.remaining_bytes < 10000)) ∧
    (is_ancient s = false → is_full_ancient s = false) := by
  constructor
  · simp [is_full_ancient]
  · intro h
    simp [is_full_ancient, h]

/-- C3: with `current_ancient` empty and a single-segment slot whose
segment is ancient and not full, the decision returns false and adopts the
segment (records the slot and a handle to it); any later call with
`current_ancient` set returns true and leaves the state untouched. -/
theorem should_move_adopt_then_keep (entry : AccountStorageEntry) (slot : Slot)
    (hanc : is_ancient entry.accounts = true)
    (hfull : is_full_ancient entry.accounts = false) :
    should_move_to_ancient_append_vec [entry] none slot =
      some (false, some (slot, entry)) ∧
    ∀ (all_storages : SnapshotStorage) (cur : Slot × AccountStorageEntry)
      (slot2 : Slot),
      should_move_to_ancient_append_vec all_storages (some cur) slot2 =
        some (true, some cur) := by
  constructor
  · simp [should_move_to_ancient_append_vec, hanc, hfull]
  · intro all_storages cur slot2
    simp [should_move_to_ancient_append_vec]

/-- C8: with `current_ancient` empty and a single-segment slot whose
segment is ancient and full, the decision returns false and leaves
`current_ancient` unchanged (still empty): the retired segment is skipped,
not adopted. -/
theorem should_move_skip_full_ancient (entry : AccountStorageEntry)
    (slot : Slot)
    (hanc : is_ancient entry.accounts = true)
    (hfull : is_full_ancient entry.accounts = true) :
    should_move_to_ancient_append_vec [entry] none slot =
      some (false, none) := by
  simp [should_move_to_ancient_append_vec, hanc, hfull]

/-- C10: called with an empty slot-segment set, the decision returns true
and leaves `current_ancient` unchanged, without reaching the
`first().unwrap()` panic: the length-1 guard fails, so the guarded branch
is never entered. -/
theorem should_move_empty_storages
    (current_ancient : Option (Slot × AccountStorageEntry)) (slot : Slot) :
    should_move_to_ancient_append_vec [] current_ancient slot =
      some (true, current_ancient) := by
  simp [should_move_to_ancient_append_vec]

/-- A concrete found-account record with the given footprint, used by the
concrete instances below. -/
def sampleFound (sz : Nat) : Pubkey × FoundStoredAccount :=
  (sz, ⟨⟨⟨0, sz, 0⟩, sz, 0⟩, 0, sz⟩)

/-- A concrete input whose footprints are 4, 20, 1: with a budget of 10 the
second account is the first deficit, and the third would individually fit
in the 6 bytes still unspent by the primary group. -/
def sampleAccountsSplit : List (Pubkey × FoundStoredAccount) :=
  [sampleFound 4, sampleFound 20, sampleFound 1]

/-- A concrete ancient, not-full segment handle. -/
def sampleAncientEntry : AccountStorageEntry :=
  ⟨⟨get_ancient_append_vec_capacity, 10000⟩⟩

/-- A concrete ancient, full segment handle. -/
def sampleFullAncientEntry : AccountStorageEntry :=
  ⟨⟨get_ancient_append_vec_capacity, 0⟩⟩

/-- C1 witness: on the empty input the contract instantiates to empty
results for both selectors. -/
theorem accounts_to_store_accessor_contract_witness :
    (AccountsToStore.new 0 [] 1).get StorageSelector.Primary =
      some ([], []) ∧
    (AccountsToStore.new 0 [] 1).get StorageSelector.Overflow =
      some ([], []) :=
  (accounts_to_store_accessor_contract 0 [] 1).2.2.2.2.2 rfl

/-- C2 witness: budget 10, footprints 4, 20, 1.  The first deficit is at
index 1, so the split index is 1 and the size-1 account lands in overflow
even though it would fit in the remaining budget. -/
theorem accounts_to_store_one_shot_split_witness :
    (AccountsToStore.new 10 sampleAccountsSplit 7).index_first_item_overflow = 1 ∧
    (AccountsToStore.new 10 sampleAccountsSplit 7).get
        StorageSelector.Overflow =
      some ((triplesOf 7 sampleAccountsSplit).drop 1,
        (hashesOf sampleAccountsSplit).drop 1) ∧
    (AccountsToStore.new 10 sampleAccountsSplit 7).get
        StorageSelector.Primary =
      some ((triplesOf 7 sampleAccountsSplit).take 1,
        (hashesOf sampleAccountsSplit).take 1) :=
  accounts_to_store_one_shot_split 10 sampleAccountsSplit 7 1
    (by decide) (by decide)

/-- C4 witness: one account of footprint 3 with budget 3: overflow is
empty. -/
theorem accounts_to_store_all_fit_witness :
    (AccountsToStore.new 3 [sampleFound 3] 1).index_first_item_overflow =
      [sampleFound 3].length ∧
    (AccountsToStore.new 3 [sampleFound 3] 1).get StorageSelector.Overflow =
      some ([], []) :=
  accounts_to_store_all_fit 3 [sampleFound 3] 1 (by decide)

/-- C3 witness: an ancient, not-full lone segment is adopted; a later call
with the state set returns true and keeps the state. -/
theorem should_move_adopt_then_keep_witness :
    should_move_to_ancient_append_vec [sampleAncientEntry] none 3 =
      some (false, some (3, sampleAncientEntry)) ∧
    should_move_to_ancient_append_vec [] (some (3, sampleAncientEntry)) 4 =
      some (true, some (3, sampleAncientEntry)) :=
  ⟨(should_move_adopt_then_keep sampleAncientEntry 3 (by decide) (by decide)).1,
    (should_move_adopt_then_keep sampleAncientEntry 3 (by decide)
      (by decide)).2 [] (3, sampleAncientEntry) 4⟩

/-- C8 witness: an ancient segment with 0 remaining bytes is skipped and
the state stays empty. -/
theorem should_move_skip_full_ancient_witness :
    should_move_to_ancient_append_vec [sampleFullAncientEntry] none 3 =
      some (false, none) :=
  should_move_skip_full_ancient sampleFullAncientEntry 3
    (by decide) (by decide)

/-- C6 witness: the boundary instances one below, at, and one above the
ancient capacity. -/
theorem is_ancient_capacity_boundary_witness :
    is_ancient ⟨get_ancient_append_vec_capacity - 1, 0⟩ = false ∧
    is_ancient ⟨get_ancient_append_vec_capacity, 0⟩ = true ∧
    is_ancient ⟨get_ancient_append_vec_capacity + 1, 0⟩ = true :=
  ⟨(is_ancient_capacity_boundary ⟨get_ancient_append_vec_capacity - 1, 0⟩).2.1 rfl,
    (is_ancient_capacity_boundary ⟨get_ancient_append_vec_capacity, 0⟩).2.2.1 rfl,
    (is_ancient_capacity_boundary ⟨get_ancient_append_vec_capacity + 1, 0⟩).2.2.2 rfl⟩

/-- C7 witness: a tiny, completely full segment is not ancient, hence not a
full ancient segment. -/
theorem is_full_ancient_characterization_witness :
    is_full_ancient ⟨0, 0⟩ = false :=
  (is_full_ancient_characterization ⟨0, 0⟩).2 (by decide)

end AncientAppendVecs
